import Mathlib

/-!
Verification of the Cyber-Jianghu interactive streaming narrative server.

This file shallowly embeds the Go source of the repository and proves
properties of the embedded functions.  Conventions used throughout:

* Go maps are modelled as association lists (`List (K × V)`); `insertA`
  replaces the value of an existing key in place and appends new keys,
  which matches Go map assignment up to iteration order.
* Go strings are modelled as `List Char`.  Where the source measures a
  string with the byte-level `len`, the model uses `utf8Len`, the sum of
  the UTF-8 sizes of the characters, which is exactly Go's `len`.
* Timestamps (`time.Time`, Unix seconds) are `Nat` or `Int` as the source
  uses unsigned comparison or signed subtraction.
* Fallible operations return `Except String`/`Option`; external effects
  (the LLM, the inference back-end, JSON marshalling) enter as explicit
  function or value parameters of the embedded operations.
-/

namespace CyberJianghu

/-- Lookup in an association list modelling a Go map read `m[k]`. -/
def lookupA {V : Type} : List (String × V) → String → Option V
  | [], _ => none
  | (k, v) :: rest, key => if k = key then some v else lookupA rest key

/-- Go map assignment `m[k] = v`: replace in place if the key is present,
otherwise add the binding. -/
def insertA {V : Type} (key : String) (val : V) : List (String × V) → List (String × V)
  | [] => [(key, val)]
  | (k, v) :: rest =>
    if k = key then (k, val) :: rest else (k, v) :: insertA key val rest

/-- Go `delete(m, k)`: remove the binding for a key if present. -/
def eraseA {V : Type} (key : String) : List (String × V) → List (String × V)
  | [] => []
  | (k, v) :: rest => if k = key then rest else (k, v) :: eraseA key rest

theorem lookupA_insertA_self {V : Type} (m : List (String × V)) (k : String) (v : V) :
    lookupA (insertA k v m) k = some v := by
  induction m with
  | nil => simp [insertA, lookupA]
  | cons hd tl ih =>
    obtain ⟨k0, v0⟩ := hd
    by_cases h : k0 = k <;> simp [insertA, lookupA, h, ih]

theorem lookupA_insertA_ne {V : Type} (m : List (String × V)) (k k' : String) (v : V)
    (h : k ≠ k') : lookupA (insertA k v m) k' = lookupA m k' := by
  induction m with
  | nil => simp [insertA, lookupA, h]
  | cons hd tl ih =>
    obtain ⟨k0, v0⟩ := hd
    by_cases h0 : k0 = k
    · subst h0
      simp [insertA, lookupA, h]
    · simp [insertA, h0, lookupA]
      split <;> simp [ih]

/-- Whether an association list has a binding for a key. -/
def hasKeyA {V : Type} (m : List (String × V)) (key : String) : Bool :=
  (lookupA m key).isSome

theorem length_insertA {V : Type} (m : List (String × V)) (k : String) (v : V) :
    (insertA k v m).length = if hasKeyA m k then m.length else m.length + 1 := by
  induction m with
  | nil => simp [insertA, hasKeyA, lookupA]
  | cons hd tl ih =>
    obtain ⟨k0, v0⟩ := hd
    by_cases h : k0 = k <;> simp [insertA, hasKeyA, lookupA, h, ih] <;> split <;> simp

theorem hasKeyA_insertA_self {V : Type} (m : List (String × V)) (k : String) (v : V) :
    hasKeyA (insertA k v m) k = true := by
  simp [hasKeyA, lookupA_insertA_self]

theorem insertA_insertA_self {V : Type} (m : List (String × V)) (k : String) (v v' : V) :
    insertA k v' (insertA k v m) = insertA k v' m := by
  induction m with
  | nil => simp [insertA]
  | cons hd tl ih =>
    obtain ⟨k0, v0⟩ := hd
    by_cases h : k0 = k <;> simp [insertA, h, ih]

/-! ## Story engine option parsing (server/internal/infra/comfyui_manager.go) -/

/-- A Go string, modelled at character granularity. -/
abbrev GoStr := List Char

/-- Go's byte-level `len(s)`: the sum of the UTF-8 sizes of the characters. -/
def utf8Len (s : GoStr) : Nat := s.foldl (fun n c => n + c.utf8Size) 0

/-- `findSubstring` from comfyui_manager.go: scan indices left to right,
return the first index where the pattern occurs, `-1` if none. -/
def findSubstringAux (sub : GoStr) : GoStr → Nat → Int
  | [], i => if sub.length ≤ 0 then (i : Int) else -1
  | c :: rest, i =>
    if sub.length ≤ (c :: rest).length then
      if (c :: rest).take sub.length = sub then (i : Int)
      else findSubstringAux sub rest (i + 1)
    else -1

def findSubstring (s sub : GoStr) : Int := findSubstringAux sub s 0

/-- `containsSubstring` from comfyui_manager.go. -/
def containsSubstring (s sub : GoStr) : Bool :=
  decide (sub.length ≤ s.length) && decide (0 ≤ findSubstring s sub)

/-- `StoryOption` (interfaces/comfyui_manager.go): `{ID, Text, Description}`. -/
structure StoryOption where
  id : GoStr
  text : GoStr
  description : GoStr
deriving DecidableEq, Repr

/-- `extractOptionText` from comfyui_manager.go.  The source body is just
`return ""` — the simplified implementation extracts nothing. -/
def extractOptionText (_text _pat : GoStr) : GoStr := []

/-- `fmt.Sprintf("%d", n)`. -/
def goItoa (n : Nat) : GoStr := (Nat.repr n).data

/-- Inner loop of `parseOptionsFromResponse` over one delimiter family:
returns the accumulated options and the `foundAll` flag. -/
def parseFamily (text : GoStr) : List GoStr → Nat → List StoryOption →
    List StoryOption × Bool
  | [], _, acc => (acc, true)
  | pat :: rest, i, acc =>
    if containsSubstring text pat = false then (acc, false)
    else
      let optionText := extractOptionText text pat
      let acc' :=
        if optionText ≠ [] then
          acc ++ [⟨goItoa (i + 1), pat ++ optionText, optionText⟩]
        else acc
      parseFamily text rest (i + 1) acc'

/-- Outer loop of `parseOptionsFromResponse` over the three delimiter
families; the accumulator carries over between families as in the source. -/
def parseFamilies (text : GoStr) : List (List GoStr) → List StoryOption →
    List StoryOption
  | [], acc => acc
  | fam :: rest, acc =>
    let res := parseFamily text fam 0 acc
    if res.2 && decide (res.1.length ≥ 2) then res.1
    else parseFamilies text rest res.1

/-- The three delimiter families probed by `parseOptionsFromResponse`. -/
def optionPatterns : List (List GoStr) :=
  [["1.".data, "2.".data, "3.".data],
   ["A.".data, "B.".data, "C.".data],
   ["一、".data, "二、".data, "三、".data]]

/-- The canned default options injected when no options were parsed. -/
def defaultOptions : List StoryOption :=
  [⟨"1".data, "继续前进".data, "继续探索当前场景".data⟩,
   ⟨"2".data, "观察周围".data, "仔细观察环境细节".data⟩,
   ⟨"3".data, "询问NPC".data, "与附近的人交谈".data⟩]

/-- `parseOptionsFromResponse` from comfyui_manager.go. -/
def parseOptionsFromResponse (text : GoStr) : List StoryOption :=
  let options := parseFamilies text optionPatterns []
  if options.length = 0 then defaultOptions else options

theorem parseFamily_fst (text : GoStr) (fam : List GoStr) (i : Nat)
    (acc : List StoryOption) : (parseFamily text fam i acc).1 = acc := by
  induction fam generalizing i acc with
  | nil => rfl
  | cons pat rest ih =>
    simp only [parseFamily, extractOptionText]
    split
    · rfl
    · simpa using ih (i + 1) acc

theorem parseFamilies_eq (text : GoStr) (fams : List (List GoStr))
    (acc : List StoryOption) : parseFamilies text fams acc = acc := by
  induction fams generalizing acc with
  | nil => rfl
  | cons fam rest ih =>
    simp only [parseFamilies]
    rw [parseFamily_fst]
    split
    · rfl
    · exact ih acc

/-- C1: the spec claims that for an LLM response containing the markers
`1.`/`2.`/`3.` the parser returns three options whose text and description
are extracted from the model text following each marker.  In the code,
`extractOptionText` always returns the empty string, so no option is ever
appended and the parser falls back to the three canned defaults for every
input — including the spec's own example response.  The default texts do
not even occur in the model text. -/
theorem c1_parse_options_always_defaults :
    (∀ text : GoStr, parseOptionsFromResponse text = defaultOptions) ∧
    parseOptionsFromResponse "You step inside… 1. Sit 2. Ask 3. Leave".data
      = defaultOptions ∧
    (∀ o ∈ defaultOptions,
      containsSubstring "You step inside… 1. Sit 2. Ask 3. Leave".data o.text
        = false) := by
  have hall : ∀ text : GoStr, parseOptionsFromResponse text = defaultOptions := by
    intro text
    simp [parseOptionsFromResponse, parseFamilies_eq]
  exact ⟨hall, hall _, by decide⟩

/-! ## Story state machine (server/internal/infra/comfyui_manager.go) -/

/-- `splitLines` from comfyui_manager.go: split on every occurrence of the
separator, scanning left to right.  (The `Custom`-free caller only uses
the separator `"\n"`.) -/
def splitLines (s sep : GoStr) : List GoStr :=
  splitAux s []
where
  splitAux : GoStr → GoStr → List GoStr
    | s0, cur =>
      if h : sep ≠ [] ∧ sep.isPrefixOf s0 then
        cur :: splitAux (s0.drop sep.length) []
      else
        match s0 with
        | [] => [cur]
        | c :: rest => splitAux rest (cur ++ [c])
  termination_by s0 => s0.length
  decreasing_by
    all_goals simp only [List.length_drop, List.length_cons]
    all_goals try omega
    all_goals
      have hle : sep.length ≤ s0.length :=
        (List.isPrefixOf_iff_prefix.mp h.2).length_le
      have hpos : 0 < sep.length := List.length_pos.mpr h.1
      omega

/-- `extractSceneDescription` from comfyui_manager.go: the first line whose
byte length exceeds 10, else the first line, else the whole text. -/
def extractSceneDescription (text : GoStr) : GoStr :=
  let lines := splitLines text "\n".data
  match lines with
  | [] => text
  | l0 :: _ =>
    match lines.find? (fun l => decide (utf8Len l > 10)) with
    | some l => l
    | none => l0

/-- `StoryState` (comfyui_manager.go).  The opaque
`Custom map[string]interface{}` field holds values of dynamic type and is
not part of any verified property; it is left out of the embedding. -/
structure StoryState where
  currentNode : GoStr
  currentScene : GoStr
  previousText : GoStr
  summary : GoStr
  protagonist : GoStr
  npcs : GoStr
  genre : GoStr
  tone : GoStr
  style : GoStr
  options : List StoryOption
deriving DecidableEq, Repr

/-- `StoryResponse` (comfyui_manager.go), restricted to the fields the
story engine computes from the generated text.  (`VisualPrompt` and
`RelatedMemories` only repackage external-service results.) -/
structure StoryResponse where
  text : GoStr
  scene : GoStr
  options : List StoryOption
deriving DecidableEq, Repr

/-- The active-stories map `state map[string]*StoryState` of `StoryEngine`. -/
abbrev StoryMap := List (String × StoryState)

/-- `GenerateStorySegment` from comfyui_manager.go.  The memory retrieval,
prompt rendering and the chat call only produce the input of the LLM; the
LLM's answer is abstracted as the `llm` parameter (`none` models a chat
error or an empty `choices` list, in which case the map is untouched and
an error is returned).  Asynchronous memory persistence has no effect on
the engine state and is dropped. -/
def generateStorySegment (m : StoryMap) (storyID : String) (llm : Option GoStr) :
    StoryMap × Except GoStr StoryResponse :=
  match lookupA m storyID with
  | none => (m, .error ("story not found: ".data ++ storyID.data))
  | some _ =>
    match llm with
    | none => (m, .error "failed to generate story".data)
    | some generatedText =>
      let options := parseOptionsFromResponse generatedText
      let scene := extractSceneDescription generatedText
      let m' :=
        match lookupA m storyID with
        | some cur =>
          insertA storyID
            { cur with previousText := generatedText, options := options } m
        | none => m
      (m', .ok { text := generatedText, scene := scene, options := options })

/-- The recognized keys of the `settings` map passed to `CreateStory`;
a missing or non-string value reads as the empty string. -/
structure StorySettings where
  protagonist : GoStr
  genre : GoStr
  tone : GoStr
  style : GoStr
deriving DecidableEq, Repr

/-- `CreateStory` from comfyui_manager.go.  Note the source stores the new
state into the map before generating the first segment and performs no
existence check.  The local `state` pointer and the map entry alias the
same object, so the post-call field assignments also update the map. -/
def createStory (m : StoryMap) (storyID : String) (settings : StorySettings)
    (llm : Option GoStr) : StoryMap × Except GoStr StoryState :=
  let genre := if settings.genre = [] then "武侠".data else settings.genre
  let tone := if settings.tone = [] then "史诗".data else settings.tone
  let style := if settings.style = [] then "古典".data else settings.style
  let state : StoryState :=
    { currentNode := "start".data
      currentScene := "故事开始".data
      previousText := []
      summary := genre ++ "主角 ".data ++ settings.protagonist ++ "的故事开始了".data
      protagonist := settings.protagonist
      npcs := []
      genre := genre
      tone := tone
      style := style
      options := [] }
  let m1 := insertA storyID state m
  match generateStorySegment m1 storyID llm with
  | (m2, .error e) => (m2, .error ("failed to generate initial story: ".data ++ e))
  | (m2, .ok resp) =>
    let updated := fun (st : StoryState) =>
      { st with currentScene := resp.scene, previousText := resp.text,
                options := resp.options }
    let m3 :=
      match lookupA m2 storyID with
      | some cur => insertA storyID (updated cur) m2
      | none => m2
    (m3, .ok (updated state))

/-- C3 amended: `CreateStory` never fails with an AlreadyExists error: for a
story_id already present in the active-stories map it succeeds (when the
LLM answers) and replaces the stored state with the freshly generated
initial state — the outcome is entirely independent of the previous
state. -/
theorem c3_create_replaces_existing (m : StoryMap) (id : String)
    (old old2 : StoryState) (s : StorySettings) (text : GoStr) :
    (∃ st, (createStory (insertA id old m) id s (some text)).2 = .ok st) ∧
    createStory (insertA id old m) id s (some text)
      = createStory (insertA id old2 m) id s (some text) := by
  constructor
  · simp [createStory, generateStorySegment, lookupA_insertA_self]
  · simp [createStory, generateStorySegment, insertA_insertA_self,
      lookupA_insertA_self]

/-- A concrete pre-existing story state used to refute C3 as stated. -/
def oldStoryC3 : StoryState :=
  { currentNode := "n".data, currentScene := "s".data, previousText := [],
    summary := [], protagonist := "甲".data, npcs := [], genre := [],
    tone := [], style := [], options := [] }

/-- C3 counterexample: with story `s1` already active, `CreateStory`
does not return an AlreadyExists error — it succeeds and the stored state
for `s1` is no longer the pre-existing one. -/
theorem c3_counterexample :
    (∃ st, (createStory [("s1", oldStoryC3)] "s1"
        ⟨"Li".data, "wuxia".data, "epic".data, "classical".data⟩
        (some "text".data)).2 = Except.ok st) ∧
    lookupA (createStory [("s1", oldStoryC3)] "s1"
        ⟨"Li".data, "wuxia".data, "epic".data, "classical".data⟩
        (some "text".data)).1 "s1" ≠ some oldStoryC3 := by
  have hlook : ∃ st, (createStory [("s1", oldStoryC3)] "s1"
      ⟨"Li".data, "wuxia".data, "epic".data, "classical".data⟩
      (some "text".data)).2 = Except.ok st ∧
      lookupA (createStory [("s1", oldStoryC3)] "s1"
        ⟨"Li".data, "wuxia".data, "epic".data, "classical".data⟩
        (some "text".data)).1 "s1" = some st ∧
      st.protagonist = "Li".data := by
    exact ⟨_, rfl, rfl, rfl⟩
  obtain ⟨st, hok, hl, hp⟩ := hlook
  refine ⟨⟨st, hok⟩, fun hcontra => ?_⟩
  rw [hl] at hcontra
  have hst : st = oldStoryC3 := by injection hcontra
  have : ("Li".data : GoStr) = "甲".data := by rw [← hp, hst]; rfl
  exact absurd this (by decide)

/-! ## Image cache (server/internal/generators/image_cache.go)

The cache directory is modelled as two association lists keyed by file
path: `blobs` for the raw image files and `metas` for the sibling
`.meta` JSON files (the two never share a name: blobs end in `.png`,
metas in `.png.meta`).  `ImageData` carries the JSON tag `"-"`, so a
marshalled meta file drops it; `MetaEntry` is the marshalled form. -/

/-- `CacheEntry` (image_cache.go).  `Base64Data` (never assigned),
`Options` and the `Metadata` map derived from it are opaque payload and
take no part in any verified property. -/
structure CacheEntry where
  key : String
  filePath : String
  imageData : List Nat
  prompt : GoStr
  createdAt : Nat
  lastAccessed : Nat
  accessCount : Nat
  fileSize : Int
  hits : Nat
deriving DecidableEq, Repr

/-- The marshalled `.meta` form of a `CacheEntry`: everything except
`ImageData` (JSON tag `"-"`). -/
structure MetaEntry where
  key : String
  filePath : String
  prompt : GoStr
  createdAt : Nat
  lastAccessed : Nat
  accessCount : Nat
  fileSize : Int
  hits : Nat
deriving DecidableEq, Repr

def toMeta (e : CacheEntry) : MetaEntry :=
  { key := e.key, filePath := e.filePath, prompt := e.prompt,
    createdAt := e.createdAt, lastAccessed := e.lastAccessed,
    accessCount := e.accessCount, fileSize := e.fileSize, hits := e.hits }

/-- `json.Unmarshal` into a `CacheEntry`: `ImageData` stays nil. -/
def ofMeta (me : MetaEntry) : CacheEntry :=
  { key := me.key, filePath := me.filePath, imageData := [],
    prompt := me.prompt, createdAt := me.createdAt,
    lastAccessed := me.lastAccessed, accessCount := me.accessCount,
    fileSize := me.fileSize, hits := me.hits }

/-- `CacheStats` (image_cache.go); the float64 `HitRate` is modelled in
exact arithmetic. -/
structure CacheStats where
  hits : Int
  misses : Int
  hitRate : ℚ
  totalEntries : Int
  totalSize : Int
deriving DecidableEq, Repr

/-- `updateHitRate` (image_cache.go). -/
def updateHitRate (st : CacheStats) : CacheStats :=
  let total := st.hits + st.misses
  if total > 0 then { st with hitRate := (st.hits : ℚ) / (total : ℚ) } else st

/-- The `ImageCache` component state plus its on-disk directory. -/
structure ImageCache where
  entries : List (String × CacheEntry)
  blobs : List (String × List Nat)
  metas : List (String × MetaEntry)
  maxEntries : Nat
  ttl : Nat
  stats : CacheStats
deriving DecidableEq, Repr

def zeroStats : CacheStats :=
  { hits := 0, misses := 0, hitRate := 0, totalEntries := 0, totalSize := 0 }

/-- `NewImageCache` with an empty directory. -/
def freshCache (maxE ttl : Nat) : ImageCache :=
  { entries := [], blobs := [], metas := [], maxEntries := maxE, ttl := ttl,
    stats := zeroStats }

/-- `Get` (image_cache.go). -/
def cacheGet (now : Nat) (key : String) (c : ImageCache) :
    Except GoStr (List Nat) × ImageCache :=
  match lookupA c.entries key with
  | none =>
    (.error ("cache miss: ".data ++ key.data),
     { c with stats := updateHitRate { c.stats with misses := c.stats.misses + 1 } })
  | some entry =>
    if c.ttl > 0 ∧ now - entry.createdAt > c.ttl then
      (.error "cache entry expired".data,
       { c with entries := eraseA key c.entries,
                blobs := eraseA entry.filePath c.blobs,
                metas := eraseA entry.filePath c.metas,
                stats := updateHitRate { c.stats with misses := c.stats.misses + 1 } })
    else
      let entry1 := { entry with
        lastAccessed := now
        accessCount := entry.accessCount + 1
        hits := entry.hits + 1 }
      let c1 := { c with
        entries := insertA key entry1 c.entries
        stats := updateHitRate { c.stats with hits := c.stats.hits + 1 } }
      if entry.imageData.length > 0 then
        match lookupA c1.blobs entry.filePath with
        | some data => (.ok data, c1)
        | none =>
          (.error "failed to read cached file".data,
           { c1 with stats :=
                       updateHitRate { c1.stats with misses := c1.stats.misses + 1 } })
      else (.ok entry.imageData, c1)

/-- The in-memory entry `Put` builds for a stored blob. -/
def putEntry (now : Nat) (key : String) (data : List Nat) (prompt : GoStr) :
    CacheEntry :=
  { key := key, filePath := key ++ ".png", imageData := data, prompt := prompt,
    createdAt := now, lastAccessed := now, accessCount := 0,
    fileSize := (data.length : Int), hits := 0 }

/-- `Put` (image_cache.go).  On overflow the source runs `evictOldest`,
which calls `Invalidate`; `Invalidate` acquires `c.mu` while `Put` still
holds it, and Go's `sync.RWMutex` is not reentrant, so `Put` blocks
forever.  `none` models that no result is ever produced. -/
def cachePut (now : Nat) (key : String) (data : List Nat) (prompt : GoStr)
    (c : ImageCache) : Option ImageCache :=
  let entry := putEntry now key data prompt
  let blobs1 := insertA entry.filePath data c.blobs
  let metas1 := insertA entry.filePath (toMeta entry) c.metas
  let entries1 := insertA key entry c.entries
  let c1 := { c with
    blobs := blobs1
    metas := metas1
    entries := entries1
    stats := { c.stats with
      totalEntries := c.stats.totalEntries + 1
      totalSize := c.stats.totalSize + data.length } }
  if entries1.length > c.maxEntries then none else some c1

/-- `Invalidate` (image_cache.go), as observable when called with the
lock free. -/
def cacheInvalidate (key : String) (c : ImageCache) : ImageCache :=
  match lookupA c.entries key with
  | none => c
  | some entry =>
    { c with blobs := eraseA entry.filePath c.blobs,
             metas := eraseA entry.filePath c.metas,
             entries := eraseA key c.entries,
             stats := { c.stats with
               totalEntries := c.stats.totalEntries - 1,
               totalSize := c.stats.totalSize - entry.fileSize } }

/-- The scan of `evictOldest` (image_cache.go): the key it would hand to
`Invalidate` — the first entry, then any entry with a strictly earlier
(or zero) `lastAccessed`. -/
def evictOldestKey (entries : List (String × CacheEntry)) : Option String :=
  (entries.foldl (fun best ke =>
    match best with
    | none => some (ke.1, ke.2.lastAccessed)
    | some (_, t) =>
      if t = 0 ∨ ke.2.lastAccessed < t then some (ke.1, ke.2.lastAccessed)
      else best) none).map (·.1)

/-- One directory entry of `Initialize` (image_cache.go): load the sibling
meta file if present, drop the pair if TTL-expired, otherwise restore the
entry (with `ImageData` empty, since `.meta` never stores it). -/
def initStep (now : Nat) (c : ImageCache) (name : String) (bytes : List Nat) :
    ImageCache :=
  match lookupA c.metas name with
  | none => c
  | some me =>
    if c.ttl ≠ 0 ∧ now - me.createdAt > c.ttl then
      { c with blobs := eraseA name c.blobs, metas := eraseA name c.metas }
    else
      let e := { ofMeta me with fileSize := (bytes.length : Int) }
      { c with entries := insertA me.key e c.entries,
               stats := { c.stats with
                 totalEntries := c.stats.totalEntries + 1,
                 totalSize := c.stats.totalSize + e.fileSize } }

/-- `Initialize` (image_cache.go): scan the directory snapshot. -/
def cacheInitialize (now : Nat) (c : ImageCache) : ImageCache :=
  c.blobs.foldl (fun acc nb => initStep now acc nb.1 nb.2) c

theorem updateHitRate_hits (st : CacheStats) : (updateHitRate st).hits = st.hits := by
  by_cases h : st.hits + st.misses > 0 <;> simp [updateHitRate, h]

/-- `Put` written out: the guard and the successor state. -/
theorem cachePut_eq (now : Nat) (key : String) (data : List Nat) (prompt : GoStr)
    (c : ImageCache) :
    cachePut now key data prompt c =
      if (insertA key (putEntry now key data prompt) c.entries).length > c.maxEntries
      then none
      else some { c with
        blobs := insertA (putEntry now key data prompt).filePath data c.blobs
        metas := insertA (putEntry now key data prompt).filePath
                   (toMeta (putEntry now key data prompt)) c.metas
        entries := insertA key (putEntry now key data prompt) c.entries
        stats := { c.stats with
          totalEntries := c.stats.totalEntries + 1
          totalSize := c.stats.totalSize + data.length } } := rfl

theorem lookupA_insertA_cases {V : Type} (m : List (String × V)) (k k' : String)
    (v w : V) (h : lookupA (insertA k v m) k' = some w) :
    w = v ∨ lookupA m k' = some w := by
  by_cases hk : k = k'
  · subst hk
    rw [lookupA_insertA_self] at h
    exact Or.inl (Option.some.inj h).symm
  · rw [lookupA_insertA_ne _ _ _ _ hk] at h
    exact Or.inr h

/-- C4: a successful `Put` followed immediately by a `Get` on the same
fingerprint returns exactly the stored bytes, and a second `Put` of the
same fingerprint succeeds, replaces the contents (`Get` then returns the
new bytes) and leaves the number of cache entries unchanged. -/
theorem c4_put_get_roundtrip (now : Nat) (key : String)
    (d1 d2 : List Nat) (p1 p2 : GoStr) (c c1 : ImageCache)
    (h1 : cachePut now key d1 p1 c = some c1) :
    (cacheGet now key c1).1 = Except.ok d1 ∧
    ∃ c2, cachePut now key d2 p2 c1 = some c2 ∧
      c2.entries.length = c1.entries.length ∧
      (cacheGet now key c2).1 = Except.ok d2 := by
  rw [cachePut_eq] at h1
  split at h1
  · exact absurd h1 (by simp)
  case isFalse hlen =>
  injection h1 with h1
  subst h1
  constructor
  · simp only [cacheGet, lookupA_insertA_self]
    simp [putEntry, lookupA_insertA_self]
  · have hcond : ¬((insertA key (putEntry now key d2 p2) c.entries).length
        > c.maxEntries) := by
      rw [length_insertA]
      rw [length_insertA] at hlen
      exact hlen
    rw [cachePut_eq]
    simp only []
    rw [insertA_insertA_self, if_neg hcond]
    refine ⟨_, rfl, ?_, ?_⟩
    · simp [length_insertA]
    · simp only [cacheGet, lookupA_insertA_self]
      simp [putEntry, lookupA_insertA_self]

/-- The cache state after the first put of the C4 witness. -/
def c4Cache1 : ImageCache :=
  (cachePut 5 "k" [7] "p".data (freshCache 2 0)).getD (freshCache 2 0)

/-- Witness for C4 at a concrete input: put `[7]` under `"k"` into a fresh
cache, get it back, then put `[3]` under the same key. -/
theorem c4_witness :
    (cacheGet 5 "k" c4Cache1).1 = Except.ok [7] ∧
    ∃ c2, cachePut 5 "k" [3] "q".data c4Cache1 = some c2 ∧
      c2.entries.length = c4Cache1.entries.length ∧
      (cacheGet 5 "k" c2).1 = Except.ok [3] :=
  c4_put_get_roundtrip 5 "k" [7] [3] "p".data "q".data (freshCache 2 0) c4Cache1 rfl

/-- C7: the spec says the `(N+1)`-th put evicts exactly the entry with the
smallest `last_accessed`.  The code's overflow path instead self-deadlocks:
`Put` holds `c.mu` when it calls `evictOldest`, which calls `Invalidate`,
which acquires `c.mu` again — Go's `sync.RWMutex` is not reentrant, so the
`(N+1)`-th `Put` blocks forever and nothing is evicted.  Concretely, with
`max_entries = 1` the first put succeeds and the second put (new key, so
the count reaches 2 > 1) produces no result. -/
theorem c7_eviction_deadlocks :
    (cachePut 0 "k1" [9] "p".data (freshCache 1 0)).isSome = true ∧
    ((cachePut 0 "k1" [9] "p".data (freshCache 1 0)).bind
      (cachePut 10 "k2" [8] "q".data)) = none := by
  constructor <;> rfl

theorem initStep_imageData (now : Nat) (c : ImageCache) (name : String)
    (bytes : List Nat)
    (hc : ∀ key e, lookupA c.entries key = some e → e.imageData = []) :
    ∀ key e, lookupA (initStep now c name bytes).entries key = some e →
      e.imageData = [] := by
  intro key e he
  simp only [initStep] at he
  split at he
  · exact hc key e he
  · split at he
    · exact hc key e he
    · rcases lookupA_insertA_cases _ _ _ _ _ he with h | h
      · rw [h]
        rfl
      · exact hc key e h

theorem foldl_initStep_imageData (now : Nat) :
    ∀ (l : List (String × List Nat)) (acc : ImageCache),
    (∀ key e, lookupA acc.entries key = some e → e.imageData = []) →
    ∀ key e,
      lookupA ((l.foldl (fun a nb => initStep now a nb.1 nb.2) acc)).entries key
        = some e → e.imageData = [] := by
  intro l
  induction l with
  | nil => intro acc h; simpa using h
  | cons nb rest ih =>
    intro acc h
    exact ih _ (initStep_imageData now acc nb.1 nb.2 h)

/-- C10: an entry restored from disk by `Initialize` was unmarshalled from
the `.meta` file, whose JSON never contains `ImageData`, so the in-memory
entry holds empty bytes.  `Get` on such an entry takes the
`len(entry.ImageData) > 0 == false` branch: it returns the empty byte
content with a nil error, never touches the blob file (the result is the
same for every state of the blob directory), and still counts the access
as a hit. -/
theorem c10_initialized_get_empty (now0 now : Nat) (c0 : ImageCache)
    (key : String) (e : CacheEntry)
    (hfresh : ∀ k x, lookupA c0.entries k = some x → x.imageData = [])
    (hl : lookupA (cacheInitialize now0 c0).entries key = some e)
    (hexp : ¬((cacheInitialize now0 c0).ttl > 0 ∧
        now - e.createdAt > (cacheInitialize now0 c0).ttl)) :
    ∀ bs : List (String × List Nat),
      (cacheGet now key { cacheInitialize now0 c0 with blobs := bs }).1
          = Except.ok [] ∧
      (cacheGet now key { cacheInitialize now0 c0 with blobs := bs }).2.stats.hits
          = (cacheInitialize now0 c0).stats.hits + 1 := by
  intro bs
  have hdata : e.imageData = [] :=
    foldl_initStep_imageData now0 c0.blobs c0 hfresh key e hl
  simp only [cacheGet, hl]
  rw [if_neg hexp]
  simp [hdata, updateHitRate_hits]

/-- A concrete on-disk meta file for the C10 witness. -/
def c10DiskMeta : MetaEntry :=
  { key := "k", filePath := "k.png", prompt := [], createdAt := 0,
    lastAccessed := 0, accessCount := 0, fileSize := 1, hits := 0 }

/-- A fresh cache whose directory holds one blob and its meta file. -/
def c10Cache : ImageCache :=
  { entries := [], blobs := [("k.png", [7])], metas := [("k.png", c10DiskMeta)],
    maxEntries := 5, ttl := 100, stats := zeroStats }

/-- Witness for C10 at a concrete input: restore one entry from disk, then
`Get` it with the blob directory wiped — empty bytes, nil error, one hit. -/
theorem c10_witness :
    (cacheGet 2 "k" { cacheInitialize 1 c10Cache with blobs := [] }).1
        = Except.ok [] ∧
    (cacheGet 2 "k" { cacheInitialize 1 c10Cache with blobs := [] }).2.stats.hits
        = (cacheInitialize 1 c10Cache).stats.hits + 1 :=
  c10_initialized_get_empty 1 2 c10Cache "k" _
    (fun k x h => by simp [lookupA] at h) rfl (by decide) []

/-! ## Embedding normalization (server/internal/rag/embedding.go)

`NormalizeVector` works on `[]float64`; the model uses exact real
arithmetic.  The refuting input below (the zero vector) is exact even in
IEEE 754: `0*0 + 0*0 == 0`, `math.Sqrt(0) == 0`, and the `norm == 0`
branch is taken exactly. -/

/-- The accumulation loop of `NormalizeVector`:
`for _, v := range vector { norm += v * v }`. -/
def normSq (v : List ℝ) : ℝ := v.foldl (fun acc x => acc + x * x) 0

/-- `NormalizeVector` (embedding.go). -/
noncomputable def NormalizeVector (v : List ℝ) : List ℝ :=
  if v.length = 0 then v
  else
    let norm := Real.sqrt (normSq v)
    if norm = 0 then v
    else v.map (fun x => x / norm)

/-- The L2 norm of a vector, as the source computes it. -/
noncomputable def l2norm (v : List ℝ) : ℝ := Real.sqrt (normSq v)

theorem normSq_eq_sum (v : List ℝ) : normSq v = (v.map (fun x => x * x)).sum := by
  suffices h : ∀ acc : ℝ, v.foldl (fun a x => a + x * x) acc
      = acc + (v.map (fun x => x * x)).sum by
    simpa [normSq] using h 0
  induction v with
  | nil => intro acc; simp
  | cons x rest ih =>
    intro acc
    simp [ih (acc + x * x)]
    ring

theorem normSq_nonneg (v : List ℝ) : 0 ≤ normSq v := by
  rw [normSq_eq_sum]
  apply List.sum_nonneg
  intro x hx
  obtain ⟨y, _, rfl⟩ := List.mem_map.mp hx
  exact mul_self_nonneg y

theorem list_sum_div (l : List ℝ) (n : ℝ) :
    (l.map (fun x => x / n)).sum = l.sum / n := by
  induction l with
  | nil => simp
  | cons x rest ih => simp [ih, add_div]

theorem normSq_map_div (v : List ℝ) (n : ℝ) :
    normSq (v.map (fun x => x / n)) = normSq v / (n * n) := by
  rw [normSq_eq_sum, normSq_eq_sum, List.map_map]
  have hmap : ((fun x => x * x) ∘ fun x => x / n) = fun x => (x * x) / (n * n) := by
    funext x
    simp [div_mul_div_comm]
  rw [hmap]
  have := list_sum_div (v.map (fun x => x * x)) (n * n)
  simpa [List.map_map, Function.comp] using this

/-- C5 amended: a vector whose squared norm is nonzero normalizes to exact
unit L2 norm (so trivially within 1e-9 of 1); but an empty or zero vector
is returned unchanged by `NormalizeVector` — it is not rejected, and
`embedBatchUncached` stores whatever `NormalizeVector` returns. -/
theorem c5_normalize_unit_or_identity (v : List ℝ) :
    (normSq v ≠ 0 → l2norm (NormalizeVector v) = 1) ∧
    (normSq v = 0 → NormalizeVector v = v) := by
  constructor
  · intro h
    have hpos : 0 < normSq v := lt_of_le_of_ne (normSq_nonneg v) (Ne.symm h)
    have hlen : ¬(v.length = 0) := by
      intro h0
      rw [List.length_eq_zero.mp h0] at h
      simp [normSq] at h
    have hsq : 0 < Real.sqrt (normSq v) := Real.sqrt_pos.mpr hpos
    rw [NormalizeVector, if_neg hlen]
    simp only [hsq.ne', if_false, ite_false]
    rw [l2norm, normSq_map_div, Real.mul_self_sqrt (normSq_nonneg v),
      div_self h, Real.sqrt_one]
  · intro h
    rw [NormalizeVector]
    split
    · rfl
    · simp [h]

/-- C5 counterexample: the zero vector `[0.0]` is returned unchanged by
`NormalizeVector` (not rejected), and its norm is 0, which is not within
1e-9 of 1. -/
theorem c5_counterexample :
    NormalizeVector [(0 : ℝ)] = [0] ∧
    ¬(|l2norm (NormalizeVector [(0 : ℝ)]) - 1| < 1 / 1000000000) := by
  have h0 : normSq [(0 : ℝ)] = 0 := by simp [normSq]
  have hid : NormalizeVector [(0 : ℝ)] = [0] :=
    (c5_normalize_unit_or_identity [(0 : ℝ)]).2 h0
  refine ⟨hid, ?_⟩
  rw [hid, l2norm, h0, Real.sqrt_zero]
  norm_num

/-- Witness for C5 at a concrete input: `[3, 4]` normalizes to a vector of
norm exactly 1. -/
theorem c5_witness : l2norm (NormalizeVector [(3 : ℝ), 4]) = 1 :=
  (c5_normalize_unit_or_identity [(3 : ℝ), 4]).1 (by norm_num [normSq])

/-! ## Image generation queue (server/internal/generators/image_queue.go)

The queue's buffered request channel (capacity 100) is a list, the
per-request result channels are modelled as a delivery list keyed by
request id, and the external `comfyClient.GenerateImage` is a `backend`
parameter indexed by the invocation count, so distinct invocations may
return distinct bytes; a `.error` result models a non-nil `err`, on which
the worker panics (see `workerStep`).  An image fingerprint
(`GenerateCacheKey`) is an MD5 of the prompt and options, so requests
with equal `Options` have equal fingerprints. -/

/-- `GenerateOptions` (comfyui_client.go); float64 fields in exact
arithmetic. -/
structure GenerateOptions where
  prompt : GoStr
  negativePrompt : GoStr
  width : Int
  height : Int
  steps : Int
  cfgScale : ℚ
  seed : Int
  model : GoStr
  lora : GoStr
  loraStrength : ℚ
  samplerName : GoStr
  scheduler : GoStr
deriving DecidableEq, Repr

/-- `QueueRequest` (image_queue.go); the result channel is implicit in the
delivery list. -/
structure QueueRequest where
  id : String
  options : GenerateOptions
  createdAt : Int
  priority : Int
deriving DecidableEq, Repr

/-- `QueueResult` (image_queue.go); the wall-clock `Duration` is not part
of any verified property and is recorded as 0.  `Error` is set from `err`
when a result is built, which only happens on the success path (`err`
nil): the error path panics first, so every reachable result carries no
error. -/
structure QueueResult where
  id : String
  imageData : List Nat
  error : Option GoStr
  duration : Int
deriving DecidableEq, Repr

/-- The `ImageQueue` state: pending channel, result map, per-request
deliveries, and the number of back-end invocations so far. -/
structure ImageQueue where
  requests : List QueueRequest
  results : List (String × QueueResult)
  delivered : List (String × QueueResult)
  calls : Nat
deriving DecidableEq, Repr

def emptyQueue : ImageQueue :=
  { requests := [], results := [], delivered := [], calls := 0 }

/-- `Enqueue` (image_queue.go): non-blocking send into the capacity-100
channel; `QueueFull` otherwise. -/
def queueEnqueue (req : QueueRequest) (q : ImageQueue) : Except GoStr ImageQueue :=
  if q.requests.length < 100 then .ok { q with requests := q.requests ++ [req] }
  else .error "queue is full".data

/-- One iteration of `worker` (image_queue.go): take the next request and
invoke the back-end (`comfyClient.GenerateImage`, the `backend` parameter,
indexed by the invocation count; `.error` models a non-nil `err`).  On
success the result is stored in the result map and pushed to the request's
own result channel.  On a back-end error the source reads
`imageData.ImageData` (image_queue.go:81) from the nil result pointer — a
panic: no `QueueResult` is built or delivered and the process dies,
modelled as `none`.  In the reachable success path `Error: err` is nil. -/
def workerStep (backend : Nat → GenerateOptions → Except GoStr (List Nat))
    (q : ImageQueue) : Option ImageQueue :=
  match q.requests with
  | [] => some q
  | req :: rest =>
    match backend q.calls req.options with
    | .error _ => none
    | .ok data =>
      let result : QueueResult :=
        { id := req.id, imageData := data, error := none, duration := 0 }
      some { requests := rest
             results := insertA req.id result q.results
             delivered := q.delivered ++ [(req.id, result)]
             calls := q.calls + 1 }

/-- `n` iterations of the worker loop; `none` as soon as one iteration
panics. -/
def runWorkers (backend : Nat → GenerateOptions → Except GoStr (List Nat)) :
    Nat → ImageQueue → Option ImageQueue
  | 0, q => some q
  | n + 1, q => (workerStep backend q).bind (runWorkers backend n)

theorem runWorkers_drains (backend : Nat → GenerateOptions → Except GoStr (List Nat)) :
    ∀ (n : Nat) (q : ImageQueue), q.requests.length = n →
      (∀ i opts, ∃ d, backend i opts = Except.ok d) →
      ∃ qf, runWorkers backend n q = some qf ∧
        qf.calls = q.calls + n ∧
        qf.delivered.length = q.delivered.length + n ∧
        qf.requests = [] := by
  intro n
  induction n with
  | zero =>
    intro q h _
    exact ⟨q, rfl, by omega, by omega, List.length_eq_zero.mp h⟩
  | succ k ih =>
    intro q h hok
    cases hq : q.requests with
    | nil =>
      rw [hq] at h
      simp at h
    | cons req rest =>
      obtain ⟨d, hd⟩ := hok q.calls req.options
      have hstep : ∃ qs, workerStep backend q = some qs ∧
          qs.requests = rest ∧ qs.calls = q.calls + 1 ∧
          qs.delivered.length = q.delivered.length + 1 := by
        simp only [workerStep, hq, hd]
        exact ⟨_, rfl, rfl, rfl, by simp⟩
      obtain ⟨qs, hsome, hreq, hcalls, hdel⟩ := hstep
      have hrest : qs.requests.length = k := by
        rw [hreq]
        rw [hq] at h
        simpa using h
      obtain ⟨qf, hrunf, hc, hd2, hr⟩ := ih qs hrest hok
      refine ⟨qf, ?_, ?_, ?_, hr⟩
      · rw [show runWorkers backend (k + 1) q
            = (workerStep backend q).bind (runWorkers backend k) from rfl, hsome]
        exact hrunf
      · rw [hc, hcalls]
        omega
      · rw [hd2, hdel]
        omega

/-- C2 amended: the work queue performs no fingerprint coalescing — on a
run in which the back-end returns successfully, every pending request
causes its own back-end invocation: draining `n` pending requests
(whatever their fingerprints) invokes the back-end exactly `n` more times
and makes one per-request delivery each.  (When an invocation errors, the
worker instead panics on a nil dereference before building or delivering
any result.) -/
theorem c2_no_coalescing (backend : Nat → GenerateOptions → Except GoStr (List Nat))
    (q : ImageQueue)
    (hok : ∀ i opts, ∃ d, backend i opts = Except.ok d) :
    ∃ qf, runWorkers backend q.requests.length q = some qf ∧
      qf.calls = q.calls + q.requests.length ∧
      qf.delivered.length = q.delivered.length + q.requests.length ∧
      qf.requests = [] :=
  runWorkers_drains backend q.requests.length q rfl hok

/-- Concrete options shared by the two C2 requests (hence one fingerprint). -/
def c2Opts : GenerateOptions :=
  { prompt := "x".data, negativePrompt := [], width := 512, height := 512,
    steps := 20, cfgScale := 7, seed := -1, model := "m".data, lora := [],
    loraStrength := 1, samplerName := "euler".data, scheduler := "normal".data }

def c2Req1 : QueueRequest := { id := "a", options := c2Opts, createdAt := 0, priority := 0 }

def c2Req2 : QueueRequest := { id := "b", options := c2Opts, createdAt := 0, priority := 0 }

/-- A never-erroring back-end whose successive invocations return
distinct bytes. -/
def c2Backend : Nat → GenerateOptions → Except GoStr (List Nat) :=
  fun i _ => .ok [i]

/-- C2 counterexample: two pending requests with identical options (hence
the same fingerprint) each trigger their own back-end invocation — two
invocations in total — and the two callers observe different bytes,
refuting both the at-most-one-in-flight claim and the same-bytes claim. -/
theorem c2_counterexample :
    c2Req1.options = c2Req2.options ∧
    (∃ q1 q2 qf, queueEnqueue c2Req1 emptyQueue = .ok q1 ∧
      queueEnqueue c2Req2 q1 = .ok q2 ∧
      runWorkers c2Backend 2 q2 = some qf ∧
      qf.calls = 2 ∧
      lookupA qf.delivered "a"
        = some { id := "a", imageData := [0], error := none, duration := 0 } ∧
      lookupA qf.delivered "b"
        = some { id := "b", imageData := [1], error := none, duration := 0 } ∧
      lookupA qf.delivered "a" ≠ lookupA qf.delivered "b") := by
  refine ⟨rfl, _, _, _, rfl, rfl, rfl, rfl, rfl, rfl, by decide⟩

/-- The queue of the C2 witness: the two identical-fingerprint requests
pending. -/
def c2QueueTwo : ImageQueue :=
  { requests := [c2Req1, c2Req2], results := [], delivered := [], calls := 0 }

/-- Witness for the amended C2 at a concrete input: a never-erroring
back-end drains the two pending requests with two invocations and two
deliveries. -/
theorem c2_witness :
    ∃ qf, runWorkers c2Backend c2QueueTwo.requests.length c2QueueTwo = some qf ∧
      qf.calls = c2QueueTwo.calls + c2QueueTwo.requests.length ∧
      qf.delivered.length
        = c2QueueTwo.delivered.length + c2QueueTwo.requests.length ∧
      qf.requests = [] :=
  c2_no_coalescing c2Backend c2QueueTwo (fun i _ => ⟨[i], rfl⟩)

/-! ## Bilibili adapter packet framing (server/internal/adapters/bilibili.go) -/

def headerLength : Nat := 16

def operationMessage : Nat := 5

/-- `binary.BigEndian.Uint32(data[off : off+4])` on a byte buffer. -/
def beU32 (data : List Nat) (off : Nat) : Nat :=
  data.getD off 0 * 2 ^ 24 + data.getD (off + 1) 0 * 2 ^ 16 +
    data.getD (off + 2) 0 * 2 ^ 8 + data.getD (off + 3) 0

/-- The offset loop of `handleMessage` (bilibili.go), collecting the body
passed to `parseDanmaku` for every MESSAGE packet.  The Go body slice
`data[offset+headerLength : offset+packetLen]` is only defined when its
upper bound stays inside the buffer; a MESSAGE packet whose declared
length overruns the buffer makes the slice bound exceed the data (a Go
slice-bounds panic), modelled as `none`. -/
def handleLoop (data : List Nat) : Nat → List (List Nat) → Option (List (List Nat))
  | offset, acc =>
    if h1 : offset < data.length then
      if data.length < offset + headerLength then some acc
      else
        if h3 : beU32 data offset < headerLength then some acc
        else
          if beU32 data (offset + 8) = operationMessage then
            if offset + beU32 data offset ≤ data.length then
              handleLoop data (offset + beU32 data offset)
                (acc ++ [(data.drop (offset + headerLength)).take
                          (beU32 data offset - headerLength)])
            else none
          else handleLoop data (offset + beU32 data offset) acc
    else some acc
  termination_by offset _ => data.length - offset
  decreasing_by
    all_goals simp only [headerLength] at h3
    all_goals omega

/-- `handleMessage` (bilibili.go): iterate packets from offset 0. -/
def handleMessage (data : List Nat) : Option (List (List Nat)) :=
  handleLoop data 0 []

/-- C6 amended: exactly 16 bytes are required to begin parsing a frame and
a buffer shorter than a full header stops parsing without error; a packet
with `packet_length < 16` aborts the current batch; but a MESSAGE packet
whose declared `packet_length` exceeds the buffer is not a clean stop —
the body slice overruns the buffer (a panic), modelled as `none`. -/
theorem c6_partial_buffer_and_short_packet (data : List Nat) :
    (data.length < headerLength → handleMessage data = some []) ∧
    (headerLength ≤ data.length → beU32 data 0 < headerLength →
      handleMessage data = some []) ∧
    (headerLength ≤ data.length → headerLength ≤ beU32 data 0 →
      beU32 data 8 = operationMessage → data.length < beU32 data 0 →
      handleMessage data = none) := by
  refine ⟨?_, ?_, ?_⟩
  · intro hshort
    rw [handleMessage, handleLoop]
    by_cases h0 : 0 < data.length
    · rw [dif_pos h0, if_pos (by omega)]
    · rw [dif_neg h0]
  · intro hlen hpk
    have h0 : 0 < data.length := by
      simp only [headerLength] at hlen
      omega
    rw [handleMessage, handleLoop, dif_pos h0, if_neg (by omega), dif_pos hpk]
  · intro hlen hpk hop hover
    have h0 : 0 < data.length := by
      simp only [headerLength] at hlen
      omega
    rw [handleMessage, handleLoop, dif_pos h0, if_neg (by omega),
      dif_neg (by omega), if_pos (by simpa using hop), if_neg (by omega)]

/-- C6 counterexample: a 16-byte buffer holding a complete header that
declares `packet_length = 32` of operation MESSAGE.  The buffer is partial
(half the declared packet is missing), yet parsing does not stop without
error: the body slice runs out of bounds. -/
theorem c6_counterexample :
    handleMessage [0, 0, 0, 32, 0, 16, 0, 1, 0, 0, 0, 5, 0, 0, 0, 1] = none := by
  rw [handleMessage, handleLoop]
  norm_num [beU32, headerLength, operationMessage]

/-- Witness for C6 at concrete inputs: a 3-byte partial buffer stops
cleanly; a 16-byte packet declaring `packet_length = 2 < 16` aborts the
batch cleanly; a MESSAGE packet declaring `packet_length = 20` over a
16-byte buffer is the out-of-bounds case. -/
theorem c6_witness :
    handleMessage [1, 2, 3] = some [] ∧
    handleMessage [0, 0, 0, 2, 0, 16, 0, 1, 0, 0, 0, 5, 0, 0, 0, 9] = some [] ∧
    handleMessage [0, 0, 0, 20, 0, 16, 0, 1, 0, 0, 0, 5, 0, 0, 0, 2] = none :=
  ⟨(c6_partial_buffer_and_short_packet _).1 (by decide),
   (c6_partial_buffer_and_short_packet _).2.1 (by decide) (by decide),
   (c6_partial_buffer_and_short_packet _).2.2 (by decide) (by decide)
     (by decide) (by decide)⟩

/-! ## Danmaku deduplication (server/internal/adapters/bilibili.go) -/

/-- `contains` (bilibili.go) — identical code to `containsSubstring`. -/
def goContains (s sub : String) : Bool := containsSubstring s.data sub.data

/-- The dedup-relevant fields of `BilibiliAdapter`. -/
structure DedupState where
  recentDanmaku : List (String × Int)
  dedupWindow : Int
  filterKeywords : List String
  lastDedupTime : Int
deriving DecidableEq, Repr

/-- `cleanupOldDanmaku` (bilibili.go): drop entries older than the window. -/
def cleanupOldDanmaku (now : Int) (st : DedupState) : DedupState :=
  { st with recentDanmaku :=
      st.recentDanmaku.filter (fun te => decide (now - te.2 ≤ st.dedupWindow)) }

/-- The opening block of `shouldSendDanmaku`: run the cleanup when the
last one is more than 300 s old. -/
def dedupPreClean (now : Int) (st : DedupState) : DedupState :=
  if now - st.lastDedupTime > 300 then
    { cleanupOldDanmaku now st with lastDedupTime := now }
  else st

/-- `shouldSendDanmaku` (bilibili.go): periodic cleanup, duplicate check
inside the window, then the keyword filter. -/
def shouldSendDanmaku (now : Int) (text : String) (st : DedupState) :
    Bool × DedupState :=
  let st1 := dedupPreClean now st
  let dup :=
    match lookupA st1.recentDanmaku text with
    | some lastSeen => decide (now - lastSeen < st1.dedupWindow)
    | none => false
  if dup then (false, st1)
  else if st1.filterKeywords.any (fun kw => goContains text kw) then (false, st1)
  else (true, st1)

/-- `recordDanmaku` (bilibili.go). -/
def recordDanmaku (now : Int) (text : String) (st : DedupState) : DedupState :=
  { st with recentDanmaku := insertA text now st.recentDanmaku }

/-- The publish path of `parseDanmaku` for one extracted chat text:
publish iff `shouldSendDanmaku`, and record exactly on publish. -/
def processDanmaku (now : Int) (text : String) (st : DedupState) :
    Bool × DedupState :=
  let r := shouldSendDanmaku now text st
  if r.1 then (true, recordDanmaku now text r.2) else (false, r.2)

/-- A sequence of arrivals of the same text at the given timestamps. -/
def processTrace (text : String) : List Int → DedupState → List Bool × DedupState
  | [], st => ([], st)
  | t :: ts, st =>
    let r := processDanmaku t text st
    let rest := processTrace text ts r.2
    (r.1 :: rest.1, rest.2)

theorem lookupA_filter {V : Type} (p : String × V → Bool)
    (m : List (String × V)) (k : String) (v : V)
    (h : lookupA m k = some v) (hp : p (k, v) = true) :
    lookupA (m.filter p) k = some v := by
  induction m with
  | nil => simp [lookupA] at h
  | cons hd tl ih =>
    obtain ⟨k0, v0⟩ := hd
    by_cases hk : k0 = k
    · subst hk
      rw [lookupA, if_pos rfl] at h
      injection h with h
      subst h
      simp [List.filter, hp, lookupA]
    · rw [lookupA, if_neg hk] at h
      by_cases hkeep : p (k0, v0) = true
      · simp [List.filter, hkeep, lookupA, hk, ih h]
      · simp only [List.filter]
        rw [Bool.not_eq_true] at hkeep
        rw [hkeep]
        exact ih h

theorem lookupA_filter_none {V : Type} (p : String × V → Bool)
    (m : List (String × V)) (k : String) (h : lookupA m k = none) :
    lookupA (m.filter p) k = none := by
  induction m with
  | nil => simp [List.filter, h]
  | cons hd tl ih =>
    obtain ⟨k0, v0⟩ := hd
    by_cases hk : k0 = k
    · rw [lookupA, if_pos hk] at h
      exact absurd h (by simp)
    · rw [lookupA, if_neg hk] at h
      by_cases hkeep : p (k0, v0) = true
      · simp [List.filter, hkeep, lookupA, hk, ih h]
      · simp only [List.filter]
        rw [Bool.not_eq_true] at hkeep
        rw [hkeep]
        exact ih h

theorem dedupPreClean_dedupWindow (now : Int) (st : DedupState) :
    (dedupPreClean now st).dedupWindow = st.dedupWindow := by
  unfold dedupPreClean
  split <;> rfl

theorem dedupPreClean_filterKeywords (now : Int) (st : DedupState) :
    (dedupPreClean now st).filterKeywords = st.filterKeywords := by
  unfold dedupPreClean
  split <;> rfl

theorem dedupPreClean_lookup_some (now : Int) (text : String) (st : DedupState)
    (t : Int) (h : lookupA st.recentDanmaku text = some t)
    (hw : now - t ≤ st.dedupWindow) :
    lookupA (dedupPreClean now st).recentDanmaku text = some t := by
  unfold dedupPreClean
  split
  · exact lookupA_filter _ _ _ _ h (decide_eq_true hw)
  · exact h

theorem dedupPreClean_lookup_none (now : Int) (text : String) (st : DedupState)
    (h : lookupA st.recentDanmaku text = none) :
    lookupA (dedupPreClean now st).recentDanmaku text = none := by
  unfold dedupPreClean
  split
  · exact lookupA_filter_none _ _ _ h
  · exact h

/-- A suppressed arrival: a duplicate inside the window is not published
and leaves the recorded timestamp, the window and the keywords intact. -/
theorem suppressed_step (now : Int) (text : String) (st : DedupState) (t : Int)
    (h : lookupA st.recentDanmaku text = some t)
    (hw : now - t < st.dedupWindow) :
    (processDanmaku now text st).1 = false ∧
    (processDanmaku now text st).2.dedupWindow = st.dedupWindow ∧
    (processDanmaku now text st).2.filterKeywords = st.filterKeywords ∧
    lookupA (processDanmaku now text st).2.recentDanmaku text = some t := by
  have hl := dedupPreClean_lookup_some now text st t h (le_of_lt hw)
  have hw1 : now - t < (dedupPreClean now st).dedupWindow := by
    rw [dedupPreClean_dedupWindow]
    exact hw
  have hss : shouldSendDanmaku now text st = (false, dedupPreClean now st) := by
    simp only [shouldSendDanmaku, hl]
    rw [decide_eq_true hw1]
    simp
  refine ⟨?_, ?_, ?_, ?_⟩
  · simp [processDanmaku, hss]
  · simp [processDanmaku, hss, dedupPreClean_dedupWindow]
  · simp [processDanmaku, hss, dedupPreClean_filterKeywords]
  · simp [processDanmaku, hss, hl]

/-- A first arrival: text unseen and not keyword-filtered is published and
recorded at the arrival time. -/
theorem publish_step (now : Int) (text : String) (st : DedupState)
    (hnone : lookupA st.recentDanmaku text = none)
    (hkw : ∀ kw ∈ st.filterKeywords, goContains text kw = false) :
    (processDanmaku now text st).1 = true ∧
    (processDanmaku now text st).2.dedupWindow = st.dedupWindow ∧
    (processDanmaku now text st).2.filterKeywords = st.filterKeywords ∧
    lookupA (processDanmaku now text st).2.recentDanmaku text = some now := by
  have hl := dedupPreClean_lookup_none now text st hnone
  have hany : (dedupPreClean now st).filterKeywords.any
      (fun kw => goContains text kw) = false := by
    rw [dedupPreClean_filterKeywords, List.any_eq_false]
    simpa using hkw
  have hss : shouldSendDanmaku now text st = (true, dedupPreClean now st) := by
    simp only [shouldSendDanmaku, hl, hany]
    simp
  refine ⟨?_, ?_, ?_, ?_⟩
  · simp [processDanmaku, hss]
  · simp [processDanmaku, hss, recordDanmaku, dedupPreClean_dedupWindow]
  · simp [processDanmaku, hss, recordDanmaku, dedupPreClean_filterKeywords]
  · simp [processDanmaku, hss, recordDanmaku, lookupA_insertA_self]

theorem trace_suppressed (text : String) (t : Int) :
    ∀ (ts : List Int) (st : DedupState),
      lookupA st.recentDanmaku text = some t →
      (∀ u ∈ ts, u - t < st.dedupWindow) →
      (processTrace text ts st).1 = ts.map (fun _ => false) := by
  intro ts
  induction ts with
  | nil => intro st _ _; rfl
  | cons u us ih =>
    intro st hl hw
    obtain ⟨h1, h2, h3, h4⟩ :=
      suppressed_step u text st t hl (hw u (by simp))
    have hrec := ih (processDanmaku u text st).2 h4 (by
      intro x hx
      rw [h2]
      exact hw x (by simp [hx]))
    simp [processTrace, h1, hrec]

/-- A concrete dedup state for the spec's example run. -/
def c8State : DedupState :=
  { recentDanmaku := [], dedupWindow := 60, filterKeywords := [],
    lastDedupTime := 0 }

/-- C8: (i) a text with an identical recorded content inside the preceding
window is suppressed; (ii) a published text is recorded at its publish
time; (iii) of a first arrival of an unseen, unfiltered text followed by
any duplicates inside its window, exactly the first is published; and
(iv) the spec's example run with `dedup_window = 60`: "hi" at t=0
delivered, at t=30 suppressed, at t=61 delivered again. -/
theorem c8_dedup_exactly_once :
    (∀ (now : Int) (text : String) (st : DedupState) (t0 : Int),
      lookupA st.recentDanmaku text = some t0 → now - t0 < st.dedupWindow →
      (processDanmaku now text st).1 = false) ∧
    (∀ (now : Int) (text : String) (st : DedupState),
      (processDanmaku now text st).1 = true →
      lookupA (processDanmaku now text st).2.recentDanmaku text = some now) ∧
    (∀ (text : String) (st : DedupState) (t : Int) (ts : List Int),
      lookupA st.recentDanmaku text = none →
      (∀ kw ∈ st.filterKeywords, goContains text kw = false) →
      (∀ u ∈ ts, u - t < st.dedupWindow) →
      (processTrace text (t :: ts) st).1 = true :: ts.map (fun _ => false)) ∧
    (processTrace "hi" [0, 30, 61] c8State).1 = [true, false, true] := by
  refine ⟨?_, ?_, ?_, by decide⟩
  · intro now text st t0 hl hw
    exact (suppressed_step now text st t0 hl hw).1
  · intro now text st hpub
    rcases hss : shouldSendDanmaku now text st with ⟨b, st1⟩
    simp only [processDanmaku, hss] at hpub ⊢
    cases b
    · simp at hpub
    · simp [recordDanmaku, lookupA_insertA_self]
  · intro text st t ts hnone hkw hwin
    obtain ⟨h1, h2, h3, h4⟩ := publish_step t text st hnone hkw
    have hrec := trace_suppressed text t ts (processDanmaku t text st).2 h4 (by
      intro x hx
      rw [h2]
      exact hwin x hx)
    simp [processTrace, h1, hrec]

/-- Witness for C8 at concrete inputs: fresh state, window 60, no
keywords; arrivals of "hi" at t=0, 30, 45 publish exactly the first. -/
theorem c8_witness :
    (processTrace "hi" [0, 30, 45] c8State).1 = [true, false, false] :=
  c8_dedup_exactly_once.2.2.1 "hi" c8State 0 [30, 45] rfl
    (by intro kw hkw; simp [c8State] at hkw) (by decide)

/-! ## Danmaku broadcast hub (server/internal/web/live_service.go) -/

/-- `interfaces.Danmaku`: the normalized chat message. -/
structure Danmaku where
  username : String
  userID : String
  content : String
  timestamp : Int
  isVip : Bool
  isAdmin : Bool
  giftValue : Int
deriving DecidableEq, Repr

/-- `Client` (live_service.go): `Send` is a buffered channel created with
capacity 256; the capacity is carried as per-client state. -/
structure HubClient where
  id : String
  send : List (List Nat)
  sendCap : Nat
  closed : Bool
deriving DecidableEq, Repr

/-- `DanmakuHub` (live_service.go): the client set and the buffered
broadcast input channel (capacity 1000). -/
structure DanmakuHub where
  clients : List HubClient
  broadcastQ : List Danmaku
deriving DecidableEq, Repr

/-- `broadcastDanmaku` (live_service.go): marshal the frame once
(`json.Marshal` is the `marshal` parameter; `none` models a marshal
error, upon which the hub returns unchanged), then perform a non-blocking
send into every client's bounded `Send` channel — a full buffer drops the
frame for that client only. -/
def broadcastDanmaku (marshal : Danmaku → Option (List Nat)) (h : DanmakuHub)
    (d : Danmaku) : DanmakuHub :=
  match marshal d with
  | none => h
  | some data =>
    { h with clients := h.clients.map (fun c =>
        if c.send.length < c.sendCap then { c with send := c.send ++ [data] }
        else c) }

/-- `Broadcast` (live_service.go): non-blocking send into the hub's
broadcast channel; the frame is dropped when the channel is full. -/
def hubBroadcast (h : DanmakuHub) (d : Danmaku) : DanmakuHub :=
  if h.broadcastQ.length < 1000 then { h with broadcastQ := h.broadcastQ ++ [d] }
  else h

/-- C9: a broadcast serializes the message once — every receiving client
gets the same bytes `data` — and performs only non-blocking enqueues:
a client whose queue is at capacity is left entirely unchanged (the frame
is dropped for it alone), every other client receives exactly the one
frame, and no client's queue ever grows beyond its configured bound. -/
theorem c9_bounded_fanout (marshal : Danmaku → Option (List Nat))
    (h : DanmakuHub) (d : Danmaku) (data : List Nat)
    (hm : marshal d = some data) :
    List.Forall₂ (fun c c1 =>
        c1.id = c.id ∧ c1.sendCap = c.sendCap ∧
        (c.send.length < c.sendCap → c1.send = c.send ++ [data]) ∧
        (¬c.send.length < c.sendCap → c1 = c) ∧
        (c.send.length ≤ c.sendCap → c1.send.length ≤ c1.sendCap))
      h.clients (broadcastDanmaku marshal h d).clients := by
  simp only [broadcastDanmaku, hm]
  rw [List.forall₂_map_right_iff]
  rw [List.forall₂_same]
  intro c _
  by_cases hfull : c.send.length < c.sendCap
  · rw [if_pos hfull]
    refine ⟨rfl, rfl, fun _ => rfl, fun hn => absurd hfull hn, fun _ => ?_⟩
    simp only [List.length_append, List.length_cons, List.length_nil]
    omega
  · rw [if_neg hfull]
    exact ⟨rfl, rfl, fun hlt => absurd hlt hfull, fun _ => rfl, fun hle => hle⟩

/-- A serializer for the C9 witness. -/
def c9Marshal : Danmaku → Option (List Nat) := fun _ => some [1, 2]

def c9Msg : Danmaku :=
  { username := "u", userID := "1", content := "hi", timestamp := 0,
    isVip := false, isAdmin := false, giftValue := 0 }

/-- A hub with one full client (two frames queued, capacity two) and one
empty client. -/
def c9Hub : DanmakuHub :=
  { clients := [⟨"a", [[9], [8]], 2, false⟩, ⟨"b", [], 2, false⟩],
    broadcastQ := [] }

/-- Witness for C9 at a concrete input: broadcasting to a full client and
an empty client. -/
theorem c9_witness :
    List.Forall₂ (fun c c1 =>
        c1.id = c.id ∧ c1.sendCap = c.sendCap ∧
        (c.send.length < c.sendCap → c1.send = c.send ++ [[1, 2]]) ∧
        (¬c.send.length < c.sendCap → c1 = c) ∧
        (c.send.length ≤ c.sendCap → c1.send.length ≤ c1.sendCap))
      c9Hub.clients (broadcastDanmaku c9Marshal c9Hub c9Msg).clients :=
  c9_bounded_fanout c9Marshal c9Hub c9Msg [1, 2] rfl

end CyberJianghu

